import Mathlib

set_option maxHeartbeats 1000000

/-! Shallow embedding of the two Flask services of this repository: the Task
Service in labs/monolithic-container/src/monolithic/app.py and the Diagnostic
Service in labs/troubleshooting-multi-container/src/python-app/app.py.
The external Redis store is modelled as explicit state: an association list of
string keys to task records for the key space, a list holding the members of
the set task_ids, and the integer task_counter. Each request handler becomes a
function from its request data and the store state to a response and the new
store state. -/

namespace TaskApp

/-- A stored task record: the serialized JSON value with fields title and
completed that the Task Service writes under a per-task key. -/
structure Task where
  title : String
  completed : Bool
  deriving Repr, DecidableEq

/-- A task as produced by get_tasks and by the JSON create route: the stored
record with the string identifier attached under the field id. -/
structure TaskOut where
  id : String
  title : String
  completed : Bool
  deriving Repr, DecidableEq

/-- The state of the Redis store as the Task Service uses it: the counter
task_counter, the string-keyed values, and the members of the set task_ids. -/
structure RedisState where
  task_counter : Nat
  store : List (String × Task)
  task_ids : List String
  deriving Repr, DecidableEq

/-- Redis GET: the value stored under a key, if any. -/
def kvGet : List (String × Task) → String → Option Task
  | [], _ => none
  | (k, v) :: rest, key => if k = key then some v else kvGet rest key

/-- Redis SET: overwrite the value under a key, creating the key if absent. -/
def kvSet : List (String × Task) → String → Task → List (String × Task)
  | [], key, v => [(key, v)]
  | (k, w) :: rest, key, v =>
      if k = key then (key, v) :: rest else (k, w) :: kvSet rest key v

/-- Redis DEL: remove a key and its value. -/
def kvDel (l : List (String × Task)) (key : String) : List (String × Task) :=
  l.filter (fun p => decide (p.1 ≠ key))

/-- Redis SADD on the set task_ids: add a member unless already present. -/
def saddId (ids : List String) (id : String) : List String :=
  if id ∈ ids then ids else ids ++ [id]

/-- Redis SREM on the set task_ids: remove a member. -/
def sremId (ids : List String) (id : String) : List String :=
  ids.filter (fun x => decide (x ≠ id))

/-- The key under which the record of a task is stored (the Python f-string
interpolating the identifier after the text task and a colon). -/
def taskKey (task_id : String) : String := "task:" ++ task_id

/-- The store before any request: counter unset (0), no keys, empty set. -/
def initState : RedisState := { task_counter := 0, store := [], task_ids := [] }

/-- An HTTP response of the Task Service, as far as its payload is
observable: each constructor is one of the response shapes the handlers
return. -/
inductive Resp where
  | redirect (location : String)
  | htmlPage (total_tasks completed_tasks : Nat) (tasks : List TaskOut)
  | jsonTask (t : TaskOut)
  | jsonError (error : String)
  | jsonList (ts : List TaskOut)
  | jsonHealth (status redis container_type : String)
  deriving Repr, DecidableEq

/-- The HTTP status code each Task Service response carries: Flask redirects
are 302, the created task is returned with 201, the error payload with 400,
and everything else with the default 200. -/
def Resp.statusCode : Resp → Nat
  | .redirect _ => 302
  | .htmlPage _ _ _ => 200
  | .jsonTask _ => 201
  | .jsonError _ => 400
  | .jsonList _ => 200
  | .jsonHealth _ _ _ => 200

/-- Source get_tasks: fetch all identifiers from the set, fetch each record,
skip missing records, attach the identifier, and sort by the (string)
identifier attached under id. -/
def get_tasks (s : RedisState) : List TaskOut :=
  let tasks := s.task_ids.filterMap (fun task_id =>
    (kvGet s.store (taskKey task_id)).map
      (fun t => { id := task_id, title := t.title, completed := t.completed }))
  tasks.mergeSort (fun a b => decide (a.id ≤ b.id))

/-- Source get_next_id: INCR task_counter, returning the incremented value. -/
def get_next_id (s : RedisState) : Nat × RedisState :=
  (s.task_counter + 1, { s with task_counter := s.task_counter + 1 })

/-- Source index (GET /): renders the page with the task list, the total
count and the completed count. -/
def index (s : RedisState) : Resp :=
  let tasks := get_tasks s
  .htmlPage tasks.length (tasks.filter (fun t => t.completed)).length tasks

/-- Source create_task (POST /tasks): reads the form field title; a missing
or empty title skips the write entirely; in every case the handler redirects
to the index page. -/
def create_task (form_title : Option String) (s : RedisState) :
    Resp × RedisState :=
  match form_title with
  | some title =>
    if title ≠ "" then
      let pair := get_next_id s
      let task_id := toString pair.1
      let task : Task := { title := title, completed := false }
      let s2 := { pair.2 with store := kvSet pair.2.store (taskKey task_id) task }
      let s3 := { s2 with task_ids := saddId s2.task_ids task_id }
      (.redirect "/", s3)
    else (.redirect "/", s)
  | none => (.redirect "/", s)

/-- Source toggle_task (POST /tasks/id/toggle): GET the record; if absent do
nothing; otherwise flip the completed boolean and SET the record back under
the same key; always redirect to the index page. -/
def toggle_task (task_id : String) (s : RedisState) : Resp × RedisState :=
  match kvGet s.store (taskKey task_id) with
  | some task =>
      let task2 : Task := { title := task.title, completed := !task.completed }
      (.redirect "/", { s with store := kvSet s.store (taskKey task_id) task2 })
  | none => (.redirect "/", s)

/-- Source delete_task (POST /tasks/id/delete): DEL the record key and SREM
the identifier, unconditionally; always redirect to the index page. -/
def delete_task (task_id : String) (s : RedisState) : Resp × RedisState :=
  (.redirect "/",
    { s with store := kvDel s.store (taskKey task_id),
             task_ids := sremId s.task_ids task_id })

/-- Source api_get_tasks (GET /api/tasks): the task list as JSON. -/
def api_get_tasks (s : RedisState) : Resp × RedisState :=
  (.jsonList (get_tasks s), s)

/-- Source api_create_task (POST /api/tasks). The argument data is the parsed
JSON body (none when the body is absent or not JSON) and the inner option is
its title field; the Python truthiness test on data and on the title accepts
exactly a body carrying a present, non-empty title, every other case falls
through to the 400 error payload. On success the stored record carries title
and completed only; the response body additionally carries the id. -/
def api_create_task (data : Option (Option String)) (s : RedisState) :
    Resp × RedisState :=
  match data with
  | some (some title) =>
    if title ≠ "" then
      let pair := get_next_id s
      let task_id := toString pair.1
      let task : Task := { title := title, completed := false }
      let s2 := { pair.2 with store := kvSet pair.2.store (taskKey task_id) task }
      let s3 := { s2 with task_ids := saddId s2.task_ids task_id }
      (.jsonTask { id := task_id, title := title, completed := false }, s3)
    else (.jsonError "Title required", s)
  | some none => (.jsonError "Title required", s)
  | none => (.jsonError "Title required", s)

/-- Outcome of one call to ping on the store client: success, or any raised
error (the bare except clause of the handler catches every exception). -/
inductive PingResult where
  | ok
  | err (msg : String)
  deriving Repr, DecidableEq

/-- Source health_check (GET /api/health): report healthy when the ping
succeeds and unhealthy when it raises, always answering 200 with the static
status and container_type fields. -/
def health_check (ping : PingResult) : Resp :=
  let redis_status := match ping with | .ok => "healthy" | .err _ => "unhealthy"
  .jsonHealth "running" redis_status "monolithic"

/-- State of the Redis store as the Diagnostic Service uses it: the single
counter visit_counter. -/
structure DiagState where
  visit_counter : Nat
  deriving Repr, DecidableEq

/-- A response of the Diagnostic Service counter route. -/
inductive CounterResp where
  | jsonCounter (counter : Nat)
  | jsonErr (error : String)
  deriving Repr, DecidableEq

/-- The status code of a Diagnostic Service counter response: the default 200
on success, 503 on the error payload. -/
def CounterResp.statusCode : CounterResp → Nat
  | .jsonCounter _ => 200
  | .jsonErr _ => 503

/-- Outcome of the store connection during one request of the Diagnostic
Service: connected, or a ConnectionError carrying its message. -/
inductive ConnState where
  | ok
  | connError (msg : String)
  deriving Repr, DecidableEq

/-- Source counter (GET /counter of the Diagnostic Service): INCR
visit_counter and return the new value as JSON; when the connection fails the
error payload is returned with 503 and the store is not touched. -/
def counter (conn : ConnState) (s : DiagState) : CounterResp × DiagState :=
  match conn with
  | .ok =>
      let count := s.visit_counter + 1
      (.jsonCounter count, { visit_counter := count })
  | .connError e => (.jsonErr e, s)

/-- One state-changing request to the Task Service. Creation is recorded with
the submitted title; the form route and the JSON route perform the same store
writes, so one constructor covers both. -/
inductive Op where
  | create (title : String)
  | toggle (id : String)
  | delete (id : String)
  deriving Repr, DecidableEq

/-- The state transition one request performs. -/
def applyOp (s : RedisState) : Op → RedisState
  | .create t => (create_task (some t) s).2
  | .toggle id => (toggle_task id s).2
  | .delete id => (delete_task id s).2

/-- Run a sequence of requests from a state. -/
def runOps (s : RedisState) (ops : List Op) : RedisState := ops.foldl applyOp s

/-! Identifiers are issued as integers by INCR and stored as their decimal
strings. The development below recovers the decimal digits of a number from
the fueled core printer and inverts them, so that distinct counter values are
known to give distinct identifier strings. -/

/-- Reference form of the decimal digit list of a number, without fuel. -/
def natDigits (n : Nat) : List Char :=
  if h : n < 10 then [Nat.digitChar n]
  else natDigits (n / 10) ++ [Nat.digitChar (n % 10)]
decreasing_by exact Nat.div_lt_self (by omega) (by omega)

theorem toDigitsCore_eq_natDigits (fuel n : Nat) (ds : List Char)
    (h : n < fuel) : Nat.toDigitsCore 10 fuel n ds = natDigits n ++ ds := by
  induction fuel generalizing n ds with
  | zero => omega
  | succ f ih =>
    by_cases h10 : n < 10
    · have hz : n / 10 = 0 := Nat.div_eq_of_lt h10
      simp [Nat.toDigitsCore, hz, natDigits, h10, Nat.mod_eq_of_lt h10]
    · have hnz : ¬ n / 10 = 0 := by omega
      have hlt : n / 10 < f := by omega
      have step : Nat.toDigitsCore 10 (f + 1) n ds
          = Nat.toDigitsCore 10 f (n / 10) (Nat.digitChar (n % 10) :: ds) := by
        simp [Nat.toDigitsCore, hnz]
      rw [step, ih _ _ hlt]
      conv_rhs => rw [natDigits]
      simp [h10]

theorem toDigits_eq_natDigits (n : Nat) : Nat.toDigits 10 n = natDigits n := by
  rw [Nat.toDigits, toDigitsCore_eq_natDigits _ _ _ (Nat.lt_succ_self n),
    List.append_nil]

/-- The numeric value of a decimal digit character. -/
def decDigit (c : Char) : Nat := c.toNat - 48

/-- Decode a decimal digit string back to the number it prints. -/
def decodeDigits (l : List Char) : Nat :=
  l.foldl (fun a c => 10 * a + decDigit c) 0

theorem decDigit_digitChar (d : Nat) (h : d < 10) :
    decDigit (Nat.digitChar d) = d := by
  interval_cases d <;> rfl

theorem decodeDigits_natDigits (n : Nat) : decodeDigits (natDigits n) = n := by
  induction n using Nat.strong_induction_on with
  | _ n ih =>
    by_cases h : n < 10
    · rw [natDigits]
      simp only [h, dite_true, decodeDigits, List.foldl_cons, List.foldl_nil]
      rw [decDigit_digitChar n h]
      omega
    · rw [natDigits]
      simp only [h, dite_false, decodeDigits, List.foldl_append,
        List.foldl_cons, List.foldl_nil]
      have h1 := ih (n / 10) (Nat.div_lt_self (by omega) (by omega))
      rw [decodeDigits] at h1
      rw [h1, decDigit_digitChar _ (by omega)]
      omega

theorem natDigits_injective : Function.Injective natDigits := by
  intro a b h
  have ha := decodeDigits_natDigits a
  rw [h, decodeDigits_natDigits b] at ha
  exact ha.symm

theorem toString_nat_eq (n : Nat) : toString n = String.mk (natDigits n) := by
  show Nat.repr n = _
  rw [Nat.repr, toDigits_eq_natDigits, List.asString]

theorem toString_nat_injective : Function.Injective (fun n : Nat => toString n) := by
  intro a b h
  simp only [toString_nat_eq] at h
  exact natDigits_injective (congrArg String.data h)

theorem taskKey_injective : Function.Injective taskKey := by
  intro a b h
  have hd := congrArg String.data h
  simp only [taskKey, String.data_append] at hd
  have : a.data = b.data := List.append_cancel_left hd
  cases a
  cases b
  exact congrArg String.mk this

/-! Lemmas about the store primitives. -/

theorem kvGet_kvSet_self (l : List (String × Task)) (k : String) (v : Task) :
    kvGet (kvSet l k v) k = some v := by
  induction l with
  | nil => simp [kvGet, kvSet]
  | cons p rest ih =>
    by_cases h : p.1 = k
    · simp [kvSet, kvGet, h]
    · simp [kvSet, kvGet, h, ih]

theorem kvGet_kvSet_ne (l : List (String × Task)) (k key : String) (v : Task)
    (h : k ≠ key) : kvGet (kvSet l key v) k = kvGet l k := by
  induction l with
  | nil => simp [kvGet, kvSet, Ne.symm h]
  | cons p rest ih =>
    by_cases hp : p.1 = key
    · simp [kvSet, kvGet, hp, Ne.symm h]
    · by_cases hk : p.1 = k <;> simp [kvSet, kvGet, hp, hk, ih, h]

theorem kvSet_kvSet (l : List (String × Task)) (k : String) (v w : Task) :
    kvSet (kvSet l k v) k w = kvSet l k w := by
  induction l with
  | nil => simp [kvSet]
  | cons p rest ih =>
    by_cases h : p.1 = k
    · simp [kvSet, h]
    · simp [kvSet, h, ih]

theorem kvSet_of_kvGet (l : List (String × Task)) (k : String) (v : Task)
    (h : kvGet l k = some v) : kvSet l k v = l := by
  induction l with
  | nil => simp [kvGet] at h
  | cons p rest ih =>
    by_cases hp : p.1 = k
    · simp only [kvGet, hp, if_pos] at h
      obtain rfl : p.2 = v := by simpa using h
      have hstep : kvSet (p :: rest) k p.2 = (k, p.2) :: rest := by
        simp [kvSet, hp]
      rw [hstep, ← hp]
    · simp only [kvGet, hp, if_neg, if_false] at h
      simp [kvSet, hp, ih h]

theorem kvGet_eq_none_iff (l : List (String × Task)) (k : String) :
    kvGet l k = none ↔ k ∉ l.map Prod.fst := by
  induction l with
  | nil => simp [kvGet]
  | cons p rest ih =>
    by_cases hp : p.1 = k
    · simp [kvGet, hp]
    · simp [kvGet, hp, ih, Ne.symm hp]

theorem kvGet_isSome_iff (l : List (String × Task)) (k : String) :
    (kvGet l k).isSome = true ↔ k ∈ l.map Prod.fst := by
  rw [← Decidable.not_iff_not, ← kvGet_eq_none_iff]
  cases kvGet l k <;> simp

theorem kvSet_of_not_mem (l : List (String × Task)) (k : String) (v : Task)
    (h : k ∉ l.map Prod.fst) : kvSet l k v = l ++ [(k, v)] := by
  induction l with
  | nil => simp [kvSet]
  | cons p rest ih =>
    simp only [List.map_cons, List.mem_cons] at h
    push_neg at h
    simp [kvSet, Ne.symm h.1, ih h.2]

theorem kvGet_kvDel_self (l : List (String × Task)) (k : String) :
    kvGet (kvDel l k) k = none := by
  rw [kvGet_eq_none_iff, kvDel]
  intro hmem
  obtain ⟨p, hp, hfst⟩ := List.mem_map.mp hmem
  have := (List.mem_filter.mp hp).2
  simp [hfst] at this

theorem kvGet_kvDel_ne (l : List (String × Task)) (k key : String)
    (h : k ≠ key) : kvGet (kvDel l key) k = kvGet l k := by
  induction l with
  | nil => simp [kvGet, kvDel]
  | cons p rest ih =>
    by_cases hp : p.1 = key
    · have hstep : kvDel (p :: rest) key = kvDel rest key := by
        simp [kvDel, List.filter_cons, hp]
      have hk : ¬ p.1 = k := by rw [hp]; exact Ne.symm h
      rw [hstep, ih]
      simp [kvGet, hk]
    · have hstep : kvDel (p :: rest) key = p :: kvDel rest key := by
        simp [kvDel, List.filter_cons, hp]
      rw [hstep]
      by_cases hk : p.1 = k <;> simp [kvGet, hk, ih]

theorem kvDel_of_not_mem (l : List (String × Task)) (k : String)
    (h : k ∉ l.map Prod.fst) : kvDel l k = l := by
  rw [kvDel, List.filter_eq_self]
  intro p hp
  simp only [decide_eq_true_eq]
  intro hk
  exact h (List.mem_map.mpr ⟨p, hp, hk⟩)

theorem mem_saddId {ids : List String} {id x : String}
    (h : x ∈ saddId ids id) : x ∈ ids ∨ x = id := by
  by_cases hmem : id ∈ ids
  · simp only [saddId, if_pos hmem] at h
    exact Or.inl h
  · simp only [saddId, if_neg hmem, List.mem_append, List.mem_singleton] at h
    exact h

/-! Specification model of the task collection, the refinement target for the
listing claim. It follows the words of the spec: a record keyed by the issued
identifier, created with completed false, flipped by toggle, removed by
delete. -/

/-- Abstract task collection named by the spec: the issued-identifier counter
and the records keyed by identifier, in creation order. -/
structure SpecState where
  counter : Nat
  tasks : List (String × Task)
  deriving Repr, DecidableEq

/-- One operation of the spec model, following the words of the spec: create
requires a non-empty title, issues the next identifier and stores the record
with completed false under it; toggle flips the boolean of the record of
that identifier if present; delete removes the record of that identifier. -/
def specStep (m : SpecState) : Op → SpecState
  | .create t =>
      if t ≠ "" then
        { counter := m.counter + 1,
          tasks := m.tasks ++
            [(toString (m.counter + 1), { title := t, completed := false })] }
      else m
  | .toggle id =>
      { m with tasks := m.tasks.map (fun p =>
          if p.1 = id then (p.1, { title := p.2.title, completed := !p.2.completed })
          else p) }
  | .delete id =>
      { m with tasks := m.tasks.filter (fun p => decide (p.1 ≠ id)) }

/-- Run the spec model over a sequence of operations. -/
def specRun (m : SpecState) (ops : List Op) : SpecState := ops.foldl specStep m

/-- The spec model of the empty store. -/
def initSpec : SpecState := { counter := 0, tasks := [] }

/-- The store image of the spec model records: each record sits under the key
its identifier maps to. -/
def tasksToStore (tasks : List (String × Task)) : List (String × Task) :=
  tasks.map (fun p => (taskKey p.1, p.2))

/-- Identifiers the counter issues along a run (one per creation request). -/
def createdBy : RedisState → List Op → List String
  | _, [] => []
  | s, op :: rest =>
      (match op with
       | .create _ => [toString (s.task_counter + 1)]
       | _ => []) ++ createdBy (applyOp s op) rest

/-- Identifiers named by the deletion requests of a run. -/
def deletedBy (ops : List Op) : List String :=
  ops.filterMap (fun op => match op with | .delete id => some id | _ => none)

/-- Whether an operation is a creation. -/
def isCreate : Op → Bool
  | .create _ => true
  | _ => false

/-- Whether an operation is a deletion. -/
def isDelete : Op → Bool
  | .delete _ => true
  | _ => false

/-- The number N of creation requests of a run. -/
def numCreates (ops : List Op) : Nat := ops.countP isCreate

/-- The number M of deletion requests of a run. -/
def numDeletes (ops : List Op) : Nat := ops.countP isDelete

/-- The hypothesis of the listing claim on an operation sequence, checked
along the run: every creation carries a non-empty title (a successful
creation), and every deletion names an identifier that an earlier creation
was issued (a member of created) and that no earlier deletion already named
(the deletions are pairwise distinct). -/
def validOps : RedisState → List String → List String → List Op → Bool
  | _, _, _, [] => true
  | s, created, deleted, op :: rest =>
    match op with
    | .create t =>
        decide (t ≠ "") &&
          validOps (applyOp s op)
            (created ++ [toString (s.task_counter + 1)]) deleted rest
    | .toggle _ => validOps (applyOp s op) created deleted rest
    | .delete id =>
        decide (id ∈ created) && decide (id ∉ deleted) &&
          validOps (applyOp s op) created (deleted ++ [id]) rest

/-- Decidable form of the identifier-set invariant: every member of task_ids
has a record stored under its key. -/
def hasRecords (s : RedisState) : Bool :=
  s.task_ids.all (fun id => (kvGet s.store (taskKey id)).isSome)

/-! Unfolding lemmas for the state transition of each request. -/

theorem applyOp_create (s : RedisState) (t : String) (h : t ≠ "") :
    applyOp s (.create t) =
      { task_counter := s.task_counter + 1,
        store := kvSet s.store (taskKey (toString (s.task_counter + 1)))
          (Task.mk t false),
        task_ids := saddId s.task_ids (toString (s.task_counter + 1)) } := by
  simp [applyOp, create_task, h, get_next_id]

theorem applyOp_create_empty (s : RedisState) : applyOp s (.create "") = s := by
  simp [applyOp, create_task]

theorem applyOp_toggle_some (s : RedisState) (id : String) (task : Task)
    (h : kvGet s.store (taskKey id) = some task) :
    applyOp s (.toggle id) =
      { s with store := kvSet s.store (taskKey id) (Task.mk task.title (!task.completed)) } := by
  simp [applyOp, toggle_task, h]

theorem applyOp_toggle_none (s : RedisState) (id : String)
    (h : kvGet s.store (taskKey id) = none) : applyOp s (.toggle id) = s := by
  simp [applyOp, toggle_task, h]

theorem applyOp_delete (s : RedisState) (id : String) :
    applyOp s (.delete id) =
      { s with store := kvDel s.store (taskKey id),
               task_ids := sremId s.task_ids id } := rfl

/-! Correspondence lemmas between the concrete store writes and the spec
model operations. -/

theorem tasksToStore_keys (tasks : List (String × Task)) :
    (tasksToStore tasks).map Prod.fst = (tasks.map Prod.fst).map taskKey := by
  simp [tasksToStore, List.map_map, Function.comp]

theorem specToggle_not_mem (tasks : List (String × Task)) (id : String)
    (h : id ∉ tasks.map Prod.fst) :
    tasks.map (fun p =>
      if p.1 = id then (p.1, Task.mk p.2.title (!p.2.completed)) else p)
      = tasks := by
  induction tasks with
  | nil => rfl
  | cons p rest ih =>
    simp only [List.map_cons, List.mem_cons, not_or] at h ⊢
    rw [if_neg (fun hh => h.1 hh.symm), ih h.2]

theorem kvSet_toggle (tasks : List (String × Task)) (id : String) (task : Task)
    (hnd : (tasks.map Prod.fst).Nodup)
    (hget : kvGet (tasksToStore tasks) (taskKey id) = some task) :
    kvSet (tasksToStore tasks) (taskKey id) (Task.mk task.title (!task.completed))
      = tasksToStore (tasks.map (fun p =>
          if p.1 = id then (p.1, Task.mk p.2.title (!p.2.completed)) else p)) := by
  induction tasks with
  | nil => simp [tasksToStore, kvGet] at hget
  | cons p rest ih =>
    simp only [List.map_cons, List.nodup_cons] at hnd
    by_cases hp : p.1 = id
    · have hkey : taskKey p.1 = taskKey id := congrArg taskKey hp
      have htask : task = p.2 := by
        have : kvGet (tasksToStore (p :: rest)) (taskKey id) = some p.2 := by
          simp [tasksToStore, kvGet, hkey]
        rw [this] at hget
        exact (Option.some.injEq _ _ ▸ hget).symm
      have hrest : rest.map (fun p =>
          if p.1 = id then (p.1, Task.mk p.2.title (!p.2.completed)) else p)
          = rest := specToggle_not_mem rest id (hp ▸ hnd.1)
      simp [tasksToStore, kvSet, hkey, hp, htask, hrest]
    · have hkey : taskKey p.1 ≠ taskKey id := fun hk => hp (taskKey_injective hk)
      have hget2 : kvGet (tasksToStore rest) (taskKey id) = some task := by
        have : kvGet (tasksToStore (p :: rest)) (taskKey id)
            = kvGet (tasksToStore rest) (taskKey id) := by
          simp [tasksToStore, kvGet, hkey]
        rw [this] at hget
        exact hget
      simp [tasksToStore, kvSet, hkey, hp] at ih ⊢
      exact ih hnd.2 hget2

theorem kvDel_tasksToStore (tasks : List (String × Task)) (id : String) :
    kvDel (tasksToStore tasks) (taskKey id)
      = tasksToStore (tasks.filter (fun p => decide (p.1 ≠ id))) := by
  rw [kvDel, tasksToStore, tasksToStore, List.filter_map]
  congr 1
  apply List.filter_congr
  intro p _
  have hiff : (taskKey p.1 = taskKey id) ↔ (p.1 = id) :=
    ⟨fun h => taskKey_injective h, fun h => congrArg taskKey h⟩
  simp [Function.comp, hiff]

theorem length_filter_ne_of_nodup (l : List String) (a : String)
    (hnd : l.Nodup) (ha : a ∈ l) :
    (l.filter (fun x => decide (x ≠ a))).length + 1 = l.length := by
  induction l with
  | nil => cases ha
  | cons b rest ih =>
    rcases List.nodup_cons.mp hnd with ⟨hb, hrest⟩
    rcases List.mem_cons.mp ha with rfl | hmem
    · have hself : rest.filter (fun x => decide (x ≠ a)) = rest := by
        apply List.filter_eq_self.mpr
        intro x hx
        simp only [decide_eq_true_eq]
        rintro rfl
        exact hb hx
      have hstep : (a :: rest).filter (fun x => decide (x ≠ a))
          = rest.filter (fun x => decide (x ≠ a)) := by
        simp [List.filter_cons]
      rw [hstep, hself]
      simp
    · have hba : b ≠ a := fun h => hb (h ▸ hmem)
      have hstep : (b :: rest).filter (fun x => decide (x ≠ a))
          = b :: rest.filter (fun x => decide (x ≠ a)) := by
        simp [List.filter_cons, hba]
      rw [hstep]
      have := ih hrest hmem
      simp only [List.length_cons]
      omega

theorem specToggle_keys (tasks : List (String × Task)) (id : String) :
    (tasks.map (fun p =>
      if p.1 = id then (p.1, Task.mk p.2.title (!p.2.completed)) else p)).map
        Prod.fst = tasks.map Prod.fst := by
  rw [List.map_map]
  apply List.map_congr_left
  intro p _
  by_cases hp : p.1 = id <;> simp [hp, Function.comp]

/-- The invariant tying a concrete store state to the spec model and to the
histories of issued (created) and deleted identifiers. -/
structure Inv (s : RedisState) (m : SpecState)
    (created deleted : List String) : Prop where
  counter_eq : s.task_counter = m.counter
  store_eq : s.store = tasksToStore m.tasks
  ids_eq : s.task_ids = m.tasks.map Prod.fst
  ids_hist : s.task_ids = created.filter (fun x => decide (x ∉ deleted))
  created_nodup : created.Nodup
  created_bound : ∀ k ∈ created, ∃ j, 1 ≤ j ∧ j ≤ s.task_counter ∧ k = toString j
  len_eq : s.task_ids.length + deleted.length = created.length
  del_sub : ∀ x ∈ deleted, x ∈ created

theorem Inv.init : Inv initState initSpec [] [] := by
  constructor <;> simp [initState, initSpec, tasksToStore]

theorem Inv.ids_nodup {s m created deleted} (h : Inv s m created deleted) :
    s.task_ids.Nodup := by
  rw [h.ids_hist]
  exact h.created_nodup.filter _

theorem Inv.fresh {s m created deleted} (h : Inv s m created deleted) :
    toString (s.task_counter + 1) ∉ created := by
  intro hmem
  obtain ⟨j, hj1, hj2, hj3⟩ := h.created_bound _ hmem
  have : s.task_counter + 1 = j := toString_nat_injective hj3
  omega

theorem Inv.step_create {s m created deleted} (h : Inv s m created deleted)
    (t : String) (ht : t ≠ "") :
    Inv (applyOp s (.create t)) (specStep m (.create t))
      (created ++ [toString (s.task_counter + 1)]) deleted := by
  have hfresh : toString (s.task_counter + 1) ∉ created := h.fresh
  have hids : toString (s.task_counter + 1) ∉ s.task_ids := by
    rw [h.ids_hist]
    intro hx
    exact hfresh (List.mem_of_mem_filter hx)
  have hkeys : taskKey (toString (s.task_counter + 1)) ∉ s.store.map Prod.fst := by
    rw [h.store_eq, tasksToStore_keys, ← h.ids_eq]
    intro hx
    obtain ⟨y, hy, hyk⟩ := List.mem_map.mp hx
    exact hids (taskKey_injective hyk ▸ hy)
  have hdel : toString (s.task_counter + 1) ∉ deleted := by
    intro hx
    exact hfresh (h.del_sub _ hx)
  rw [applyOp_create s t ht]
  have hset : kvSet s.store (taskKey (toString (s.task_counter + 1))) (Task.mk t false)
      = s.store ++ [(taskKey (toString (s.task_counter + 1)), Task.mk t false)] :=
    kvSet_of_not_mem _ _ _ hkeys
  have hsadd : saddId s.task_ids (toString (s.task_counter + 1))
      = s.task_ids ++ [toString (s.task_counter + 1)] := by
    rw [saddId, if_neg hids]
  have hspec : specStep m (.create t) =
      { counter := m.counter + 1,
        tasks := m.tasks ++ [(toString (m.counter + 1), Task.mk t false)] } := by
    simp [specStep, ht]
  have hcnt : m.counter = s.task_counter := h.counter_eq.symm
  constructor
  · simp [hspec, h.counter_eq]
  · rw [hset, hspec, h.store_eq, hcnt]
    simp [tasksToStore]
  · rw [hsadd, hspec, h.ids_eq, hcnt]
    simp
  · rw [hsadd, List.filter_append, h.ids_hist]
    simp [hdel]
  · simp [List.nodup_append, h.created_nodup, hfresh]
  · intro k hk
    rcases List.mem_append.mp hk with hold | hnew
    · obtain ⟨j, hj1, hj2, hj3⟩ := h.created_bound _ hold
      exact ⟨j, hj1, by simp; omega, hj3⟩
    · refine ⟨s.task_counter + 1, by omega, by simp, ?_⟩
      exact List.mem_singleton.mp hnew
  · simp only [hsadd, List.length_append, List.length_cons, List.length_nil]
    have := h.len_eq
    omega
  · intro x hx
    exact List.mem_append.mpr (Or.inl (h.del_sub _ hx))

theorem Inv.step_toggle {s m created deleted} (h : Inv s m created deleted)
    (id : String) :
    Inv (applyOp s (.toggle id)) (specStep m (.toggle id)) created deleted := by
  cases hget : kvGet s.store (taskKey id) with
  | none =>
    rw [applyOp_toggle_none s id hget]
    have hnotin : id ∉ m.tasks.map Prod.fst := by
      intro hx
      have hkey : taskKey id ∈ s.store.map Prod.fst := by
        rw [h.store_eq, tasksToStore_keys]
        exact List.mem_map.mpr ⟨id, hx, rfl⟩
      rw [kvGet_eq_none_iff] at hget
      exact hget hkey
    have hspec : specStep m (.toggle id) = m := by
      have := specToggle_not_mem m.tasks id hnotin
      simp [specStep, this]
    rw [hspec]
    exact h
  | some task =>
    rw [applyOp_toggle_some s id task hget]
    have hnd : (m.tasks.map Prod.fst).Nodup := by
      rw [← h.ids_eq]
      exact h.ids_nodup
    have hget2 : kvGet (tasksToStore m.tasks) (taskKey id) = some task := by
      rw [← h.store_eq]
      exact hget
    have hstore := kvSet_toggle m.tasks id task hnd hget2
    constructor
    · exact h.counter_eq
    · show kvSet s.store (taskKey id) (Task.mk task.title (!task.completed)) = _
      rw [h.store_eq, hstore]
      rfl
    · show s.task_ids = _
      rw [specStep, specToggle_keys, ← h.ids_eq]
    · exact h.ids_hist
    · exact h.created_nodup
    · exact h.created_bound
    · exact h.len_eq
    · exact h.del_sub

theorem Inv.step_delete {s m created deleted} (h : Inv s m created deleted)
    (id : String) (hc : id ∈ created) (hd : id ∉ deleted) :
    Inv (applyOp s (.delete id)) (specStep m (.delete id))
      created (deleted ++ [id]) := by
  rw [applyOp_delete]
  have hmem : id ∈ s.task_ids := by
    rw [h.ids_hist]
    exact List.mem_filter.mpr ⟨hc, by simpa using hd⟩
  have hfilter : ∀ x : String,
      decide (x ∉ deleted ++ [id]) = (decide (x ≠ id) && decide (x ∉ deleted)) := by
    intro x
    by_cases h1 : x ∈ deleted <;> by_cases h2 : x = id <;> simp [h1, h2]
  constructor
  · exact h.counter_eq
  · show kvDel s.store (taskKey id) = _
    rw [h.store_eq, kvDel_tasksToStore]
    rfl
  · show sremId s.task_ids id = _
    rw [sremId, h.ids_eq, specStep]
    rw [List.filter_map]
    rfl
  · show sremId s.task_ids id = _
    rw [sremId, h.ids_hist]
    simp only [hfilter, ← List.filter_filter]
  · exact h.created_nodup
  · exact h.created_bound
  · show (sremId s.task_ids id).length + (deleted ++ [id]).length = created.length
    have h1 := length_filter_ne_of_nodup s.task_ids id h.ids_nodup hmem
    have h2 := h.len_eq
    rw [sremId]
    simp only [List.length_append, List.length_cons, List.length_nil]
    omega
  · intro x hx
    rcases List.mem_append.mp hx with hold | hnew
    · exact h.del_sub _ hold
    · rw [List.mem_singleton.mp hnew]
      exact hc

/-- The invariant propagates along every valid run. -/
theorem inv_runOps : ∀ (ops : List Op) (s : RedisState) (m : SpecState)
    (created deleted : List String), Inv s m created deleted →
    validOps s created deleted ops = true →
    Inv (runOps s ops) (specRun m ops)
      (created ++ createdBy s ops) (deleted ++ deletedBy ops) := by
  intro ops
  induction ops with
  | nil =>
    intro s m created deleted h _
    simpa [runOps, specRun, createdBy, deletedBy] using h
  | cons op rest ih =>
    intro s m created deleted h hv
    match op with
    | .create t =>
      simp only [validOps, Bool.and_eq_true, decide_eq_true_eq] at hv
      obtain ⟨ht, hv2⟩ := hv
      have hstep := h.step_create t ht
      have hrun := ih (applyOp s (.create t)) (specStep m (.create t)) _ _ hstep hv2
      simpa [runOps, specRun, createdBy, deletedBy, List.append_assoc,
        List.foldl_cons] using hrun
    | .toggle id =>
      simp only [validOps] at hv
      have hstep := h.step_toggle id
      have hrun := ih (applyOp s (.toggle id)) (specStep m (.toggle id)) _ _ hstep hv
      simpa [runOps, specRun, createdBy, deletedBy, List.foldl_cons] using hrun
    | .delete id =>
      simp only [validOps, Bool.and_eq_true, decide_eq_true_eq] at hv
      obtain ⟨⟨hc, hd⟩, hv2⟩ := hv
      have hstep := h.step_delete id hc hd
      have hrun := ih (applyOp s (.delete id)) (specStep m (.delete id)) _ _ hstep hv2
      simpa [runOps, specRun, createdBy, deletedBy, List.append_assoc,
        List.foldl_cons] using hrun

theorem length_createdBy : ∀ (ops : List Op) (s : RedisState),
    (createdBy s ops).length = numCreates ops := by
  intro ops
  induction ops with
  | nil => intro s; rfl
  | cons op rest ih =>
    intro s
    match op with
    | .create t => simp [createdBy, numCreates, List.countP_cons, isCreate, ih]
    | .toggle id => simp [createdBy, numCreates, List.countP_cons, isCreate, ih]
    | .delete id => simp [createdBy, numCreates, List.countP_cons, isCreate, ih]

theorem length_deletedBy : ∀ (ops : List Op),
    (deletedBy ops).length = numDeletes ops := by
  intro ops
  induction ops with
  | nil => rfl
  | cons op rest ih =>
    match op with
    | .create t =>
      have hstep : deletedBy (Op.create t :: rest) = deletedBy rest := by
        simp [deletedBy, List.filterMap_cons]
      rw [hstep, ih, numDeletes, numDeletes, List.countP_cons]
      simp [isDelete]
    | .toggle id =>
      have hstep : deletedBy (Op.toggle id :: rest) = deletedBy rest := by
        simp [deletedBy, List.filterMap_cons]
      rw [hstep, ih, numDeletes, numDeletes, List.countP_cons]
      simp [isDelete]
    | .delete id =>
      have hstep : deletedBy (Op.delete id :: rest) = id :: deletedBy rest := by
        simp [deletedBy, List.filterMap_cons]
      rw [hstep, List.length_cons, ih, numDeletes, numDeletes, List.countP_cons]
      simp [isDelete]

theorem length_filterMap_all_some {α β : Type} (f : α → Option β) (l : List α)
    (h : ∀ x ∈ l, (f x).isSome = true) : (l.filterMap f).length = l.length := by
  induction l with
  | nil => rfl
  | cons a rest ih =>
    have ha := h a (by simp)
    rw [List.filterMap_cons]
    cases hf : f a with
    | none => rw [hf] at ha; simp at ha
    | some b => simp [List.length_cons, ih (fun x hx => h x (by simp [hx]))]

theorem Inv.hasRec {s m created deleted} (h : Inv s m created deleted) :
    ∀ id ∈ s.task_ids, (kvGet s.store (taskKey id)).isSome = true := by
  intro id hid
  rw [kvGet_isSome_iff, h.store_eq, tasksToStore_keys, ← h.ids_eq]
  exact List.mem_map.mpr ⟨id, hid, rfl⟩

theorem length_get_tasks (s : RedisState)
    (hrec : ∀ id ∈ s.task_ids, (kvGet s.store (taskKey id)).isSome = true) :
    (get_tasks s).length = s.task_ids.length := by
  rw [get_tasks, List.length_mergeSort]
  apply length_filterMap_all_some
  intro id hid
  have := hrec id hid
  cases hk : kvGet s.store (taskKey id) with
  | none => rw [hk] at this; simp at this
  | some v => simp [hk]

theorem kvGet_tasksToStore_mem (tasks : List (String × Task)) (id : String)
    (task : Task)
    (h : kvGet (tasksToStore tasks) (taskKey id) = some task) :
    (id, task) ∈ tasks := by
  induction tasks with
  | nil => simp [tasksToStore, kvGet] at h
  | cons p rest ih =>
    by_cases hp : taskKey p.1 = taskKey id
    · have hpid : p.1 = id := taskKey_injective hp
      have : some p.2 = some task := by
        rw [← h]
        simp [tasksToStore, kvGet, hp]
      have hval : p.2 = task := by simpa using this
      exact List.mem_cons.mpr (Or.inl (by rw [← hpid, ← hval]))
    · have htail : kvGet (tasksToStore rest) (taskKey id) = some task := by
        rw [← h]
        simp [tasksToStore, kvGet, hp]
      exact List.mem_cons.mpr (Or.inr (ih htail))

theorem mem_get_tasks_spec {s m created deleted} (h : Inv s m created deleted)
    (t : TaskOut) (ht : t ∈ get_tasks s) :
    (t.id, Task.mk t.title t.completed) ∈ m.tasks := by
  rw [get_tasks, List.mem_mergeSort] at ht
  obtain ⟨id, hid, hsome⟩ := List.mem_filterMap.mp ht
  obtain ⟨task, hget, hmk⟩ := Option.map_eq_some'.mp hsome
  have hget2 : kvGet (tasksToStore m.tasks) (taskKey id) = some task := by
    rw [← h.store_eq]
    exact hget
  have hmem := kvGet_tasksToStore_mem m.tasks id task hget2
  have hid2 : t.id = id := by rw [← hmk]
  have htitle : t.title = task.title := by rw [← hmk]
  have hcomp : t.completed = task.completed := by rw [← hmk]
  rw [hid2, htitle, hcomp]
  simpa using hmem

/-- Replace the key space of a state, keeping counter and identifier set. -/
def setStore (s : RedisState) (st : List (String × Task)) : RedisState :=
  { s with store := st }

theorem mem_saddId_self (ids : List String) (id : String) :
    id ∈ saddId ids id := by
  by_cases h : id ∈ ids
  · simpa [saddId, h] using h
  · simp [saddId, h]

/-! The claims. -/

/-- A store state reached from the empty store by ten successful creations
(issuing identifiers 1 to 10) followed by deletion of every task except
those with identifiers 2 and 10. -/
def c1Ops : List Op :=
  [Op.create "a", Op.create "b", Op.create "c", Op.create "d", Op.create "e",
   Op.create "f", Op.create "g", Op.create "h", Op.create "i", Op.create "j",
   Op.delete "1", Op.delete "3", Op.delete "4", Op.delete "5", Op.delete "6",
   Op.delete "7", Op.delete "8", Op.delete "9"]

/-- The state reached by running `c1Ops` from the empty store. -/
def c1State : RedisState := runOps initState c1Ops

/-- C1, counterexample: on a store holding the tasks issued identifiers 2 and
10, the listing returns the task issued 10 before the task issued 2, although
2 is numerically smaller: the sort key is the identifier string, compared
lexicographically, not the issued integer. -/
theorem C1_counterexample :
    (get_tasks c1State).map TaskOut.id = ["10", "2"]
      ∧ "10" = toString (10 : Nat) ∧ "2" = toString (2 : Nat)
      ∧ (2 : Nat) < 10 := by
  refine ⟨?_, by decide, by decide, by decide⟩
  simp only [get_tasks]
  have h1 : c1State.task_ids.filterMap (fun task_id =>
      (kvGet c1State.store (taskKey task_id)).map
        (fun t => ({ id := task_id, title := t.title, completed := t.completed } : TaskOut)))
      = [{ id := "2", title := "b", completed := false },
         { id := "10", title := "j", completed := false }] := by decide
  rw [h1, List.mergeSort]
  simp [List.splitInTwo, List.merge]
  decide

/-- C1, amended: for every store state the listing is sorted in ascending
lexicographic order of the attached identifier strings (which agrees with
numeric order only between identifiers of equal digit count). -/
theorem C1_sorted_by_string_id (s : RedisState) :
    List.Pairwise (fun a b : TaskOut => a.id ≤ b.id) (get_tasks s) := by
  simp only [get_tasks]
  have hs := @List.sorted_mergeSort TaskOut
    (fun a b : TaskOut => decide (a.id ≤ b.id))
    (fun a b c hab hbc => by
      simp only [decide_eq_true_eq] at hab hbc ⊢
      exact le_trans hab hbc)
    (fun a b => by
      simp only [Bool.or_eq_true, decide_eq_true_eq]
      exact le_total a.id b.id)
    (s.task_ids.filterMap (fun task_id =>
      (kvGet s.store (taskKey task_id)).map
        (fun t => ({ id := task_id, title := t.title, completed := t.completed } : TaskOut))))
  exact hs.imp (fun h => of_decide_eq_true h)

/-- C2, counterexample: the form route POST /tasks with an empty title does
not answer 400: it performs no write and answers with the redirect (status
302) to the index page. -/
theorem C2_counterexample :
    (create_task (some "") initState).1 = Resp.redirect "/"
      ∧ (create_task (some "") initState).1.statusCode = 302
      ∧ ¬ (create_task (some "") initState).1.statusCode = 400
      ∧ (create_task (some "") initState).2 = initState := by
  decide

/-- C2, amended: on a missing or empty title neither create route writes a
record or adds an identifier (the state is returned unchanged); the JSON
route POST /api/tasks answers 400 with the error message, while the form
route POST /tasks answers with a redirect (302), not a 400. -/
theorem C2_no_write_without_title (s : RedisState) (form_title : Option String)
    (hform : form_title = none ∨ form_title = some "")
    (data : Option (Option String))
    (hdata : data = none ∨ data = some none ∨ data = some (some "")) :
    create_task form_title s = (Resp.redirect "/", s)
      ∧ (create_task form_title s).1.statusCode = 302
      ∧ api_create_task data s = (Resp.jsonError "Title required", s)
      ∧ (api_create_task data s).1.statusCode = 400 := by
  rcases hform with rfl | rfl <;> rcases hdata with rfl | rfl | rfl <;>
    simp [create_task, api_create_task, Resp.statusCode]

theorem C2_no_write_without_title_witness :
    create_task (some "") initState = (Resp.redirect "/", initState)
      ∧ (create_task (some "") initState).1.statusCode = 302
      ∧ api_create_task (some (some "")) initState
          = (Resp.jsonError "Title required", initState)
      ∧ (api_create_task (some (some "")) initState).1.statusCode = 400 :=
  C2_no_write_without_title initState (some "") (Or.inr rfl)
    (some (some "")) (Or.inr (Or.inr rfl))

/-- C3: POST /api/tasks with a non-empty title writes the record with that
title and completed false under the key of the newly issued identifier, adds
the identifier to the set, and answers 201 with the record plus the string
identifier under id. -/
theorem C3_api_create (s : RedisState) (t : String) (ht : t ≠ "") :
    api_create_task (some (some t)) s
      = (Resp.jsonTask (TaskOut.mk (toString (s.task_counter + 1)) t false),
         RedisState.mk (s.task_counter + 1)
           (kvSet s.store (taskKey (toString (s.task_counter + 1))) (Task.mk t false))
           (saddId s.task_ids (toString (s.task_counter + 1))))
      ∧ (api_create_task (some (some t)) s).1.statusCode = 201
      ∧ kvGet (api_create_task (some (some t)) s).2.store
          (taskKey (toString (s.task_counter + 1))) = some (Task.mk t false)
      ∧ toString (s.task_counter + 1) ∈ (api_create_task (some (some t)) s).2.task_ids := by
  have hmain : api_create_task (some (some t)) s
      = (Resp.jsonTask (TaskOut.mk (toString (s.task_counter + 1)) t false),
         RedisState.mk (s.task_counter + 1)
           (kvSet s.store (taskKey (toString (s.task_counter + 1))) (Task.mk t false))
           (saddId s.task_ids (toString (s.task_counter + 1)))) := by
    simp [api_create_task, ht, get_next_id]
  refine ⟨hmain, ?_, ?_, ?_⟩
  · rw [hmain]
    rfl
  · rw [hmain]
    exact kvGet_kvSet_self _ _ _
  · rw [hmain]
    exact mem_saddId_self _ _

theorem C3_api_create_witness :
    api_create_task (some (some "buy milk")) initState
      = (Resp.jsonTask (TaskOut.mk (toString (initState.task_counter + 1)) "buy milk" false),
         RedisState.mk (initState.task_counter + 1)
           (kvSet initState.store
             (taskKey (toString (initState.task_counter + 1))) (Task.mk "buy milk" false))
           (saddId initState.task_ids (toString (initState.task_counter + 1))))
      ∧ (api_create_task (some (some "buy milk")) initState).1.statusCode = 201
      ∧ kvGet (api_create_task (some (some "buy milk")) initState).2.store
          (taskKey (toString (initState.task_counter + 1)))
          = some (Task.mk "buy milk" false)
      ∧ toString (initState.task_counter + 1)
          ∈ (api_create_task (some (some "buy milk")) initState).2.task_ids :=
  C3_api_create initState "buy milk" (by decide)

/-- A store state holding one task, issued identifier 1, titled a. -/
def c4State : RedisState := runOps initState [Op.create "a"]

theorem toggle_task_of_get (s : RedisState) (id : String) (task : Task)
    (h : kvGet s.store (taskKey id) = some task) :
    toggle_task id s
      = (Resp.redirect "/",
         setStore s (kvSet s.store (taskKey id) (Task.mk task.title (!task.completed)))) := by
  simp [toggle_task, h, setStore]

/-- C4: toggling an existing task rewrites, under the same key, the record
with the flipped completed flag, and toggling twice returns the store to its
original state. -/
theorem C4_toggle_involution (s : RedisState) (id : String) (task : Task)
    (h : kvGet s.store (taskKey id) = some task) :
    (toggle_task id (toggle_task id s).2).2 = s
      ∧ (toggle_task id s).2
          = setStore s (kvSet s.store (taskKey id) (Task.mk task.title (!task.completed)))
      ∧ kvGet (toggle_task id s).2.store (taskKey id)
          = some (Task.mk task.title (!task.completed)) := by
  have h2 : (toggle_task id s).2
      = setStore s (kvSet s.store (taskKey id) (Task.mk task.title (!task.completed))) :=
    congrArg Prod.snd (toggle_task_of_get s id task h)
  have hget1 : kvGet (toggle_task id s).2.store (taskKey id)
      = some (Task.mk task.title (!task.completed)) := by
    rw [h2]
    exact kvGet_kvSet_self _ _ _
  refine ⟨?_, h2, hget1⟩
  have h3 : (toggle_task id (toggle_task id s).2).2
      = setStore (toggle_task id s).2
          (kvSet (toggle_task id s).2.store (taskKey id)
            (Task.mk task.title (!(!task.completed)))) :=
    congrArg Prod.snd
      (toggle_task_of_get (toggle_task id s).2 id
        (Task.mk task.title (!task.completed)) hget1)
  rw [h3, h2]
  simp only [setStore, kvSet_kvSet, Bool.not_not]
  have hback : kvSet s.store (taskKey id) (Task.mk task.title task.completed) = s.store := by
    have heta : Task.mk task.title task.completed = task := rfl
    rw [heta]
    exact kvSet_of_kvGet _ _ _ h
  rw [hback]

theorem C4_toggle_involution_witness :
    (toggle_task "1" (toggle_task "1" c4State).2).2 = c4State
      ∧ (toggle_task "1" c4State).2
          = setStore c4State (kvSet c4State.store (taskKey "1") (Task.mk "a" (!false)))
      ∧ kvGet (toggle_task "1" c4State).2.store (taskKey "1")
          = some (Task.mk "a" (!false)) :=
  C4_toggle_involution c4State "1" (Task.mk "a" false) (by decide)

/-- C5: from the empty store, after any valid sequence of N successful
creations and M deletions of distinct previously created identifiers, with
toggles interleaved arbitrarily, the listing holds exactly N − M records,
and every returned record carries the fields the spec model assigns its
identifier: the title it was created with and the completion state of its
creation or most recent toggle. -/
theorem C5_listing (ops : List Op)
    (hv : validOps initState [] [] ops = true) :
    numDeletes ops ≤ numCreates ops
      ∧ (get_tasks (runOps initState ops)).length = numCreates ops - numDeletes ops
      ∧ (get_tasks (runOps initState ops)).all
          (fun t => decide ((t.id, Task.mk t.title t.completed)
            ∈ (specRun initSpec ops).tasks)) = true := by
  have hinv := inv_runOps ops initState initSpec [] [] Inv.init hv
  simp only [List.nil_append] at hinv
  have hlen := hinv.len_eq
  rw [length_createdBy, length_deletedBy] at hlen
  have hgt := length_get_tasks (runOps initState ops) hinv.hasRec
  refine ⟨by omega, by omega, ?_⟩
  rw [List.all_eq_true]
  intro t ht
  exact decide_eq_true (mem_get_tasks_spec hinv t ht)

/-- A valid run: two creations, a toggle of the first task, deletion of the
second. -/
def c5Ops : List Op := [Op.create "a", Op.create "b", Op.toggle "1", Op.delete "2"]

theorem C5_listing_witness :
    numDeletes c5Ops ≤ numCreates c5Ops
      ∧ (get_tasks (runOps initState c5Ops)).length = numCreates c5Ops - numDeletes c5Ops
      ∧ (get_tasks (runOps initState c5Ops)).all
          (fun t => decide ((t.id, Task.mk t.title t.completed)
            ∈ (specRun initSpec c5Ops).tasks)) = true :=
  C5_listing c5Ops (by decide)

/-- Integer identifiers the store issues along a run: one per creation
request with a non-empty title (only those call INCR). -/
def issuedNats : RedisState → List Op → List Nat
  | _, [] => []
  | s, Op.create t :: rest =>
      (if t ≠ "" then [s.task_counter + 1] else [])
        ++ issuedNats (applyOp s (Op.create t)) rest
  | s, Op.toggle id :: rest => issuedNats (applyOp s (Op.toggle id)) rest
  | s, Op.delete id :: rest => issuedNats (applyOp s (Op.delete id)) rest

theorem counter_le_applyOp (s : RedisState) (op : Op) :
    s.task_counter ≤ (applyOp s op).task_counter := by
  match op with
  | Op.create t =>
    by_cases ht : t = ""
    · rw [ht, applyOp_create_empty]
    · rw [applyOp_create s t ht]
      exact Nat.le_succ _
  | Op.toggle id =>
    cases hget : kvGet s.store (taskKey id) with
    | none => rw [applyOp_toggle_none s id hget]
    | some task =>
      rw [applyOp_toggle_some s id task hget]
  | Op.delete id =>
    rw [applyOp_delete]

theorem issuedNats_lt (ops : List Op) :
    ∀ (s : RedisState) (n : Nat), n ∈ issuedNats s ops → s.task_counter < n := by
  induction ops with
  | nil =>
    intro s n hn
    simp [issuedNats] at hn
  | cons op rest ih =>
    intro s n hn
    have tail_case : ∀ n ∈ issuedNats (applyOp s op) rest, s.task_counter < n := by
      intro x hx
      have h1 := ih (applyOp s op) x hx
      have h2 := counter_le_applyOp s op
      omega
    match op with
    | Op.create t =>
      rw [issuedNats] at hn
      rcases List.mem_append.mp hn with hhead | htail
      · by_cases ht : t = ""
        · simp [ht] at hhead
        · have hne : n = s.task_counter + 1 := by
            simpa [ht] using hhead
          omega
      · exact tail_case n htail
    | Op.toggle id =>
      rw [issuedNats] at hn
      exact tail_case n hn
    | Op.delete id =>
      rw [issuedNats] at hn
      exact tail_case n hn

/-- C6: along any run, every creation with a non-empty title is issued an
integer identifier strictly greater than every identifier issued before it
(hence never equal to a previously used one): the identifiers come from the
atomically incremented counter. -/
theorem C6_ids_strictly_increasing (ops : List Op) (s : RedisState) :
    List.Pairwise (· < ·) (issuedNats s ops) := by
  induction ops generalizing s with
  | nil => simp [issuedNats]
  | cons op rest ih =>
    match op with
    | Op.create t =>
      rw [issuedNats]
      by_cases ht : t = ""
      · simpa [ht] using ih (applyOp s (Op.create t))
      · simp only [ht, ne_eq, not_false_eq_true, if_pos, List.singleton_append,
          List.pairwise_cons]
        refine ⟨?_, ih (applyOp s (Op.create t))⟩
        intro n hn
        have h1 := issuedNats_lt rest (applyOp s (Op.create t)) n hn
        rw [applyOp_create s t ht] at h1
        simpa using h1
    | Op.toggle id =>
      rw [issuedNats]
      exact ih (applyOp s (Op.toggle id))
    | Op.delete id =>
      rw [issuedNats]
      exact ih (applyOp s (Op.delete id))

theorem hasRecords_applyOp (s : RedisState) (op : Op)
    (hs : hasRecords s = true) : hasRecords (applyOp s op) = true := by
  rw [hasRecords, List.all_eq_true] at hs
  rw [hasRecords, List.all_eq_true]
  match op with
  | Op.create t =>
    by_cases ht : t = ""
    · rw [ht, applyOp_create_empty]
      exact hs
    · rw [applyOp_create s t ht]
      intro id hid
      rcases mem_saddId hid with hmem | rfl
      · by_cases hk : taskKey id = taskKey (toString (s.task_counter + 1))
        · show (kvGet (kvSet s.store (taskKey (toString (s.task_counter + 1)))
            (Task.mk t false)) (taskKey id)).isSome = true
          rw [hk, kvGet_kvSet_self]
          rfl
        · show (kvGet (kvSet s.store (taskKey (toString (s.task_counter + 1)))
            (Task.mk t false)) (taskKey id)).isSome = true
          rw [kvGet_kvSet_ne _ _ _ _ hk]
          exact hs id hmem
      · show (kvGet (kvSet s.store (taskKey (toString (s.task_counter + 1)))
          (Task.mk t false)) (taskKey (toString (s.task_counter + 1)))).isSome = true
        rw [kvGet_kvSet_self]
        rfl
  | Op.toggle id0 =>
    cases hget : kvGet s.store (taskKey id0) with
    | none =>
      rw [applyOp_toggle_none s id0 hget]
      exact hs
    | some task =>
      rw [applyOp_toggle_some s id0 task hget]
      intro id hid
      by_cases hk : taskKey id = taskKey id0
      · show (kvGet (kvSet s.store (taskKey id0)
          (Task.mk task.title (!task.completed))) (taskKey id)).isSome = true
        rw [hk, kvGet_kvSet_self]
        rfl
      · show (kvGet (kvSet s.store (taskKey id0)
          (Task.mk task.title (!task.completed))) (taskKey id)).isSome = true
        rw [kvGet_kvSet_ne _ _ _ _ hk]
        exact hs id hid
  | Op.delete id0 =>
    rw [applyOp_delete]
    intro id hid
    have hmem : id ∈ s.task_ids ∧ ¬ id = id0 := by
      have hf := List.mem_filter.mp (show id ∈ s.task_ids.filter
        (fun x => decide (x ≠ id0)) from hid)
      exact ⟨hf.1, by simpa using hf.2⟩
    have hk : taskKey id ≠ taskKey id0 := fun hkk => hmem.2 (taskKey_injective hkk)
    show (kvGet (kvDel s.store (taskKey id0)) (taskKey id)).isSome = true
    rw [kvGet_kvDel_ne _ _ _ hk]
    exact hs id hmem.1

/-- C7: the invariant that every identifier in the set has a stored record is
preserved by every Task Service operation, and therefore holds in every
state reachable from the empty store. -/
theorem C7_set_has_records :
    (∀ (s : RedisState) (op : Op),
        hasRecords s = true → hasRecords (applyOp s op) = true)
      ∧ ∀ ops : List Op, hasRecords (runOps initState ops) = true := by
  have hrun : ∀ (ops : List Op) (s : RedisState),
      hasRecords s = true → hasRecords (runOps s ops) = true := by
    intro ops
    induction ops with
    | nil =>
      intro s hs
      exact hs
    | cons op rest ih =>
      intro s hs
      exact ih _ (hasRecords_applyOp s op hs)
  exact ⟨hasRecords_applyOp, fun ops => hrun ops initState rfl⟩

theorem C7_set_has_records_witness :
    hasRecords (applyOp (applyOp initState (Op.create "a")) (Op.delete "1")) = true
      ∧ hasRecords (runOps initState [Op.create "a", Op.toggle "1"]) = true :=
  ⟨C7_set_has_records.1 (applyOp initState (Op.create "a")) (Op.delete "1") (by decide),
   C7_set_has_records.2 [Op.create "a", Op.toggle "1"]⟩

/-- C8: on an identifier with no stored record, toggle answers the redirect
and leaves the state untouched, and delete answers the redirect, leaves
every stored record untouched, and only runs the set removal; neither
surfaces an error. -/
theorem C8_missing_noop (s : RedisState) (id : String)
    (h : kvGet s.store (taskKey id) = none) :
    toggle_task id s = (Resp.redirect "/", s)
      ∧ delete_task id s
          = (Resp.redirect "/", RedisState.mk s.task_counter s.store (sremId s.task_ids id))
      ∧ (delete_task id s).2.store = s.store := by
  have hdel : kvDel s.store (taskKey id) = s.store :=
    kvDel_of_not_mem _ _ ((kvGet_eq_none_iff _ _).mp h)
  refine ⟨?_, ?_, ?_⟩
  · simp [toggle_task, h]
  · simp [delete_task, hdel]
  · simp [delete_task, hdel]

theorem C8_missing_noop_witness :
    toggle_task "z" initState = (Resp.redirect "/", initState)
      ∧ delete_task "z" initState
          = (Resp.redirect "/",
             RedisState.mk initState.task_counter initState.store (sremId initState.task_ids "z"))
      ∧ (delete_task "z" initState).2.store = initState.store :=
  C8_missing_noop initState "z" (by decide)

/-- C9: whatever the ping outcome, the health check answers 200 with status
running and container_type monolithic; the redis field is healthy exactly
when the ping succeeded, and unhealthy on any raised error. -/
theorem C9_health_always_200 (ping : PingResult) (msg : String) :
    (health_check ping).statusCode = 200
      ∧ (health_check ping = Resp.jsonHealth "running" "healthy" "monolithic"
          ↔ ping = PingResult.ok)
      ∧ health_check (PingResult.err msg)
          = Resp.jsonHealth "running" "unhealthy" "monolithic" := by
  cases ping with
  | ok => exact ⟨rfl, by simp [health_check], rfl⟩
  | err m =>
    refine ⟨rfl, ?_, rfl⟩
    constructor
    · intro hcontra
      exfalso
      simp [health_check] at hcontra
    · intro hcontra
      exact absurd hcontra (by simp)

/-- C10: with the store connected, GET /counter increments visit_counter and
answers 200 with the new value (three calls on a fresh counter answer 1, 2,
3); on a connection error it answers 503 with the error payload and leaves
the counter untouched. -/
theorem C10_counter_increment (s : DiagState) (e : String) :
    counter ConnState.ok s
        = (CounterResp.jsonCounter (s.visit_counter + 1), DiagState.mk (s.visit_counter + 1))
      ∧ (counter ConnState.ok s).1.statusCode = 200
      ∧ counter (ConnState.connError e) s = (CounterResp.jsonErr e, s)
      ∧ (counter (ConnState.connError e) s).1.statusCode = 503
      ∧ (counter ConnState.ok (DiagState.mk 0)).1 = CounterResp.jsonCounter 1
      ∧ (counter ConnState.ok (counter ConnState.ok (DiagState.mk 0)).2).1
          = CounterResp.jsonCounter 2
      ∧ (counter ConnState.ok
          (counter ConnState.ok (counter ConnState.ok (DiagState.mk 0)).2).2).1
          = CounterResp.jsonCounter 3 :=
  ⟨rfl, rfl, rfl, rfl, rfl, rfl, rfl⟩

end TaskApp
